import Mathlib

/-!
Verification of the schedule-resolution engine of the `next-train` web app.

The definitions below are a shallow embedding of the core logic of
`src/app.js` (class `NextTrainApp`).  JavaScript values that may be
`undefined` (fields missing from a raw JSONL record) are embedded as
`Option`; machine time is minutes-of-day (`Nat`) plus seconds-of-minute
(`Nat`), read from the wall clock by the caller; the display layer
(`window.i18n`, DOM) is out of scope and is represented by the pure
"display state" values the code selects between.
-/

namespace NextTrain

/-- Raw per-station schedule record, one JSONL line of `data/timetable.jsonl`.
Fields are `Option` because a malformed record may lack any of them
(JavaScript reads `undefined` for a missing field). -/
structure ScheduleRecord where
  station : Option String
  route : Option String
  destination : Option String
  operating_time : Option String
  schedule_times : Option (List String)

deriving instance DecidableEq for ScheduleRecord

/-- One resolved departure, as built by `getAllTrains` (app.js:442-449). -/
structure TrainSlot where
  time : String
  minutes : Nat
  isPast : Bool

deriving instance DecidableEq for TrainSlot

/-- Model of JavaScript `Number(part)` restricted to non-empty digit
strings (the only shape occurring in "HH:MM" parts); any other input
yields `NaN` in the source, embedded as `none`. -/
def jsNumberOfDigits (chars : List Char) : Option Nat :=
  if chars ≠ [] ∧ chars.all Char.isDigit then
    some (chars.foldl (fun acc c => acc * 10 + (c.toNat - 48)) 0)
  else none

/-- Embedding of `timeToMinutes` (app.js:492-495): split on the colon
(at the character level) and read hours and minutes.  JavaScript would
produce `NaN` on an unparseable part; the claims only concern well-formed
"HH:MM" strings (see `isValidTime`), and on those this definition agrees
with the source. -/
def timeToMinutes (timeStr : String) : Nat :=
  match (timeStr.toList.splitOn (':')).map jsNumberOfDigits with
  | [some hours, some minutes] => hours * 60 + minutes
  | _ => 0

/-- Hypothesis-side predicate: the string has the two-field "HH:MM" shape
that `timeToMinutes` parses without producing `NaN` in the source. -/
def isValidTime (timeStr : String) : Bool :=
  match (timeStr.toList.splitOn (':')).map jsNumberOfDigits with
  | [some _, some _] => true
  | _ => false

/-- Embedding of `getAllTrains` (app.js:432-455).  The selected
direction's `schedule.weekday.times` field is passed in (it is `Option`
because a malformed record can leave it undefined, cf. app.js:104), and
`currentTime` is the wall clock's minutes-of-day.  The slots are built
in input order and then sorted by `minutes` with a stable sort, matching
`trains.sort((a, b) => a.minutes - b.minutes)`. -/
def getAllTrains (times : Option (List String)) (currentTime : Nat) : List TrainSlot :=
  match times with
  | none => []
  | some ts =>
    if ts.isEmpty then []
    else
      let trains := ts.map (fun time =>
        { time := time
          minutes := timeToMinutes time
          isPast := decide (timeToMinutes time ≤ currentTime) : TrainSlot })
      trains.mergeSort (fun a b => decide (a.minutes ≤ b.minutes))

/-- Index-selection core of `getNextTrainIndex` (app.js:457-467): the
JavaScript `findIndex(train => train.minutes > currentTime)` followed by
`nextTrainIndex >= 0 ? nextTrainIndex : 0`. -/
def getNextTrainIndexOfSlots (allTrains : List TrainSlot) (currentTime : Nat) : Nat :=
  match allTrains.findIdx? (fun train => decide (train.minutes > currentTime)) with
  | some nextTrainIndex => nextTrainIndex
  | none => 0

/-- Embedding of `getNextTrainIndex` (app.js:457-467), which recomputes
the slot list via `getAllTrains` and then picks the index. -/
def getNextTrainIndex (times : Option (List String)) (currentTime : Nat) : Nat :=
  getNextTrainIndexOfSlots (getAllTrains times currentTime) currentTime

/-- Index update of `showNextTrain` (app.js:399-410): on an empty train
list the handler returns early and the index is left unchanged; otherwise
it advances, wrapping from the last train to index 0. -/
def showNextTrainIndex (allTrains : List TrainSlot) (currentTrainIndex : Nat) : Nat :=
  if allTrains.length = 0 then currentTrainIndex
  else if currentTrainIndex < allTrains.length - 1 then currentTrainIndex + 1
  else 0

/-- Index update of `showPreviousTrain` (app.js:386-397): on an empty
train list the handler returns early; otherwise it steps back, wrapping
from index 0 to the last train. -/
def showPreviousTrainIndex (allTrains : List TrainSlot) (currentTrainIndex : Nat) : Nat :=
  if allTrains.length = 0 then currentTrainIndex
  else if currentTrainIndex > 0 then currentTrainIndex - 1
  else allTrains.length - 1

/-- Display outcome selected by `updateTrainInfo` (app.js:412-430):
either the no-service text (when no train exists at the current index) or
the train's time string together with its departed styling flag. -/
inductive TrainInfoState where
  | noService
  | showTime (time : String) (departed : Bool)

deriving instance DecidableEq for TrainInfoState

/-- Embedding of `updateTrainInfo` (app.js:412-430):
`allTrains[this.currentTrainIndex]` is `undefined` out of bounds, which
selects the no-service branch. -/
def updateTrainInfoState (allTrains : List TrainSlot) (currentTrainIndex : Nat) :
    TrainInfoState :=
  match allTrains[currentTrainIndex]? with
  | none => TrainInfoState.noService
  | some currentTrain => TrainInfoState.showTime currentTrain.time currentTrain.isPast

/-- Display outcome selected by `updateCountdown` (app.js:510-550),
mirroring the four i18n messages it can emit: `noService`,
`trainDeparted`, `departing` (same minute), `departsInSeconds`
(seconds-only, carries `totalSeconds`), `departsIn` (minutes and
seconds). -/
inductive CountdownState where
  | noService
  | departed
  | departing
  | departsInSeconds (totalSeconds : Int)
  | departsIn (minutes seconds : Int)

deriving instance DecidableEq for CountdownState

/-- Embedding of `updateCountdown` (app.js:510-550).  `currentMinutes`
and `currentSeconds` are the wall clock's minutes-of-day and
seconds-of-minute.  `Math.floor` is `Int.fdiv` and the JavaScript `%`
remainder is `Int.tmod`; both arguments are non-negative on every
reachable branch, where the two conventions agree. -/
def updateCountdownState (allTrains : List TrainSlot) (currentTrainIndex : Nat)
    (currentMinutes : Nat) (currentSeconds : Nat) : CountdownState :=
  match allTrains[currentTrainIndex]? with
  | none => CountdownState.noService
  | some currentTrain =>
    let timeDiff : Int := (currentTrain.minutes : Int) - (currentMinutes : Int)
    if timeDiff < 0 then CountdownState.departed
    else if timeDiff = 0 then CountdownState.departing
    else
      let totalSeconds : Int := timeDiff * 60 - (currentSeconds : Int)
      let minutes : Int := Int.fdiv totalSeconds 60
      let seconds : Int := Int.tmod totalSeconds 60
      if minutes < 1 then CountdownState.departsInSeconds totalSeconds
      else CountdownState.departsIn minutes seconds

/-- Direction entry built by `groupSchedulesByDirection` (app.js:86-109).
The nested `schedule.weekday.times` object is flattened to the single
field `weekdayTimes`; it is `Option` because a weekday record missing its
`schedule_times` field stores `undefined` (app.js:104). -/
structure DirectionData where
  direction : Option String
  weekdayTimes : Option (List String)

deriving instance DecidableEq for DirectionData

/-- Loop body of `groupSchedulesByDirection` (app.js:89-106): insert an
empty entry for an unseen destination (the `Map` keeps insertion order),
then, for a weekday record, overwrite that destination's times. -/
def groupStep (directions : List DirectionData) (schedule : ScheduleRecord) :
    List DirectionData :=
  let direction := schedule.destination
  let directions :=
    if directions.any (fun d => decide (d.direction = direction)) then directions
    else directions ++ [{ direction := direction, weekdayTimes := some [] }]
  if schedule.operating_time = some ("工作日") then
    directions.map (fun d =>
      if d.direction = direction then
        { direction := d.direction, weekdayTimes := schedule.schedule_times }
      else d)
  else directions

/-- Embedding of `groupSchedulesByDirection` (app.js:86-109). -/
def groupSchedulesByDirection (schedules : List ScheduleRecord) : List DirectionData :=
  schedules.foldl groupStep []

/-- One entry of `routes.json`'s `lines` array. -/
structure LineMeta where
  lineName : String
  lineColor : String

deriving instance DecidableEq for LineMeta

/-- Embedding of the `routes.json` object: a string-keyed coordinate map
(latitude and longitude as exact decimals) and the line-metadata array. -/
structure RoutesData where
  coordinates : List (String × ℚ × ℚ)
  lines : List LineMeta

deriving instance DecidableEq for RoutesData

/-- Line entry of the merged catalog (app.js:67-72).  The localized
display name produced by `formatLineName` is presentation-only (it calls
`window.i18n.t`) and is not modeled; `route` keeps the original route id
used for grouping, and `lineColor` the resolved color. -/
structure LineData where
  route : Option String
  lineColor : String
  directions : List DirectionData

deriving instance DecidableEq for LineData

/-- Station entry of the merged catalog (app.js:75-80). -/
structure StationData where
  name : Option String
  lat : ℚ
  lng : ℚ
  lines : List LineData

deriving instance DecidableEq for StationData

/-- Merged catalog, the value of `this.data` (app.js:83). -/
structure MergedData where
  stations : List StationData

deriving instance DecidableEq for MergedData

/-- JavaScript `Set` insertion: keep the element only if unseen. -/
def insertUnique {α : Type} [DecidableEq α] (seen : List α) (a : α) : List α :=
  if a ∈ seen then seen else seen ++ [a]

/-- First-seen-order deduplication, the effect of filling a JavaScript
`Set` by iteration and reading it back with `Array.from` (app.js:41-44). -/
def uniqueInOrder {α : Type} [DecidableEq α] (l : List α) : List α :=
  l.foldl insertUnique []

/-- JavaScript property-key coercion: `obj[undefined]` reads the key
`"undefined"`.  Used for `routesData.coordinates[stationName]` when the
station name is missing. -/
def jsKey : Option String → String
  | some s => s
  | none => "undefined"

/-- Line builder of `mergeData` (app.js:57-73), the arrow function mapped
over a station's unique routes: look up line metadata by exact
`lineName == route` equality (a miss yields the default color `#999999`),
keep the records of this route and group them into directions. -/
def buildLine (routesData : RoutesData) (stationSchedules : List ScheduleRecord)
    (route : Option String) : LineData :=
  let line := routesData.lines.find? (fun l => decide (route = some l.lineName))
  let lineSchedules := stationSchedules.filter (fun schedule =>
    decide (schedule.route = route))
  let directions := groupSchedulesByDirection lineSchedules
  { route := route
    lineColor := match line with
      | some l => l.lineColor
      | none => "#999999"
    directions := directions }

/-- Station builder of `mergeData` (app.js:44-81), the arrow function
mapped over the distinct station names: coordinates come from
`routes.json` with a Beijing city-center default on a miss, lines from
the station's records partitioned by route. -/
def buildStation (routesData : RoutesData) (schedules : List ScheduleRecord)
    (stationName : Option String) : StationData :=
  let coordinates := routesData.coordinates.lookup (jsKey stationName)
  let lat : ℚ := match coordinates with
    | some c => c.1
    | none => 39.9042
  let lng : ℚ := match coordinates with
    | some c => c.2
    | none => 116.4074
  let stationSchedules := schedules.filter (fun schedule =>
    decide (schedule.station = stationName))
  let uniqueRoutes := uniqueInOrder (stationSchedules.map (fun s => s.route))
  { name := stationName
    lat := lat
    lng := lng
    lines := uniqueRoutes.map (buildLine routesData stationSchedules) }

/-- Embedding of `mergeData` (app.js:39-84).  It validates nothing: it
collects the distinct (possibly missing) station values in first-seen
order and builds one station entry per distinct value. -/
def mergeData (routesData : RoutesData) (schedules : List ScheduleRecord) : MergedData :=
  let allStationNames := uniqueInOrder (schedules.map (fun s => s.station))
  { stations := allStationNames.map (buildStation routesData schedules) }

/-- Well-formedness of a raw record: every required field is present.
Hypothesis-side predicate matching the specification's "well-formed
schedule records". -/
def wellFormedRecord (r : ScheduleRecord) : Bool :=
  r.station.isSome && r.route.isSome && r.destination.isSome &&
    r.operating_time.isSome && r.schedule_times.isSome

/-- Embedding of `toRad` (app.js:253-255) over the reals. -/
noncomputable def toRad (value : ℝ) : ℝ :=
  value * Real.pi / 180

/-- Real-valued model of JavaScript `Math.atan2(y, x)`: the standard
quadrant-correcting arctangent. -/
noncomputable def atan2 (y x : ℝ) : ℝ :=
  if 0 < x then Real.arctan (y / x)
  else if x < 0 then
    (if 0 ≤ y then Real.arctan (y / x) + Real.pi else Real.arctan (y / x) - Real.pi)
  else
    (if 0 < y then Real.pi / 2 else if y < 0 then -(Real.pi / 2) else 0)

/-- Embedding of `calculateDistance` (app.js:242-251), the haversine
great-circle distance with Earth radius 6371 km, over the reals (the
exact model of the floating-point source). -/
noncomputable def calculateDistance (lat1 lng1 lat2 lng2 : ℝ) : ℝ :=
  let R : ℝ := 6371
  let dLat := toRad (lat2 - lat1)
  let dLng := toRad (lng2 - lng1)
  let a := Real.sin (dLat / 2) * Real.sin (dLat / 2) +
      Real.cos (toRad lat1) * Real.cos (toRad lat2) *
      Real.sin (dLng / 2) * Real.sin (dLng / 2)
  let c := 2 * atan2 (Real.sqrt a) (Real.sqrt (1 - a))
  R * c

/-- Loop body of `findNearestStation` (app.js:261-273), abstracted over
the distance of a station from the user.  The accumulator `none` is the
initial `minDistance = Infinity` state (every real distance beats it);
`some (station, d)` stores the current nearest station and its distance,
replaced only on a strictly smaller distance. -/
noncomputable def nearestStep (dist : StationData → ℝ)
    (acc : Option (StationData × ℝ)) (station : StationData) :
    Option (StationData × ℝ) :=
  let distance := dist station
  match acc with
  | none => some (station, distance)
  | some (_, minDistance) =>
    if distance < minDistance then some (station, distance) else acc

/-- Embedding of `findNearestStation` (app.js:257-279): linear scan of
the catalog tracking the minimum computed distance; the result carries
the attached distance (`{ ...station, distance }`). -/
noncomputable def findNearestStation (userLat userLng : ℝ)
    (stations : List StationData) : Option (StationData × ℝ) :=
  stations.foldl
    (nearestStep (fun station =>
      calculateDistance userLat userLng (station.lat : ℝ) (station.lng : ℝ)))
    none

/-- Concrete sample record: weekday service towards "X" with one early
departure.  Used by witnesses only. -/
def recWeekdayEarly : ScheduleRecord :=
  { station := some ("S"), route := some ("1"), destination := some ("X")
    operating_time := some ("工作日"), schedule_times := some [("05:00")] }

/-- Concrete sample record: weekend service towards "X".  Used by
witnesses only. -/
def recWeekend : ScheduleRecord :=
  { station := some ("S"), route := some ("1"), destination := some ("X")
    operating_time := some ("双休日"), schedule_times := some [("09:00")] }

/-- Concrete sample record: a later weekday record towards "X" whose
times should win under last-seen-wins.  Used by witnesses only. -/
def recWeekdayLate : ScheduleRecord :=
  { station := some ("S"), route := some ("1"), destination := some ("X")
    operating_time := some ("工作日"), schedule_times := some [("06:00"), ("07:00")] }

/-- Concrete malformed record: the required `station` field is missing.
Used by the C4 counterexample only. -/
def recMissingStation : ScheduleRecord :=
  { station := none, route := some ("1"), destination := some ("X")
    operating_time := some ("工作日"), schedule_times := some [("06:00")] }

/-- Concrete empty routes metadata.  Used by witnesses only. -/
def emptyRoutes : RoutesData :=
  { coordinates := [], lines := [] }

/-- Concrete sample routes metadata with one station coordinate and one
line entry.  Used by witnesses only. -/
def sampleRoutes : RoutesData :=
  { coordinates := [(("S"), 39, 116)]
    lines := [{ lineName := ("1"), lineColor := ("#aa0000") }] }

/-- Concrete sample station (no lines needed).  Used by witnesses only. -/
def stationA : StationData :=
  { name := some ("A"), lat := 1, lng := 2, lines := [] }

/-- Concrete second sample station at the same coordinates as
`stationA`.  Used by witnesses only. -/
def stationB : StationData :=
  { name := some ("B"), lat := 1, lng := 2, lines := [] }

/-! Theorems.  Each claim of the specification review is settled by one
named theorem below; shared facts are proved as helper lemmas first. -/

/-- Unfolding lemma: on a present time list, `getAllTrains` is the stable
sort of the slot list built in input order (the `isEmpty` early return
coincides with sorting the empty map). -/
theorem getAllTrains_eq_mergeSort (times : List String) (now : Nat) :
    getAllTrains (some times) now =
      (times.map (fun time =>
        { time := time
          minutes := timeToMinutes time
          isPast := decide (timeToMinutes time ≤ now) : TrainSlot })).mergeSort
        (fun a b => decide (a.minutes ≤ b.minutes)) := by
  cases times with
  | nil => simp [getAllTrains]
  | cons x xs => simp [getAllTrains]

/-- C1: for every direction weekday time list (well-formed "HH:MM"
entries) and every minutes-of-day `now`, the resolver's train list
contains exactly one slot per input time (it is a permutation of the
slots built from the entries), is sorted in non-decreasing minutes-of-day
order regardless of the input order, and each slot's `isPast` flag is
true exactly when its minutes-of-day is at most `now`. -/
theorem C1_resolveAll_sorted (times : List String) (now : Nat)
    (hvalid : ∀ t ∈ times, isValidTime t = true) :
    (getAllTrains (some times) now).Perm
      (times.map (fun time =>
        { time := time
          minutes := timeToMinutes time
          isPast := decide (timeToMinutes time ≤ now) : TrainSlot })) ∧
    List.Pairwise (fun a b : TrainSlot => a.minutes ≤ b.minutes)
      (getAllTrains (some times) now) ∧
    ∀ s ∈ getAllTrains (some times) now, (s.isPast = true ↔ s.minutes ≤ now) := by
  have he := getAllTrains_eq_mergeSort times now
  refine ⟨?_, ?_, ?_⟩
  · rw [he]
    exact List.mergeSort_perm _ _
  · rw [he]
    have h := @List.sorted_mergeSort TrainSlot
      (fun a b => decide (a.minutes ≤ b.minutes))
      (fun a b c hab hbc => by
        simp only [decide_eq_true_eq] at hab hbc ⊢
        omega)
      (fun a b => by
        simp only [Bool.or_eq_true, decide_eq_true_eq]
        omega)
      (times.map (fun time =>
        { time := time
          minutes := timeToMinutes time
          isPast := decide (timeToMinutes time ≤ now) : TrainSlot }))
    exact h.imp (fun hab => by simpa using hab)
  · intro s hs
    rw [he] at hs
    have hmem := (List.mergeSort_perm _ _).mem_iff.mp hs
    simp only [List.mem_map] at hmem
    obtain ⟨t, _, rfl⟩ := hmem
    simp

/-- Witness for C1 at the concrete input times ["23:30", "06:00"] (out
of order) and now = 23:31 (1411 minutes). -/
theorem C1_resolveAll_sorted_witness :
    (∀ t ∈ [("23:30"), ("06:00")], isValidTime t = true) ∧
    ((getAllTrains (some [("23:30"), ("06:00")]) 1411).Perm
      ([("23:30"), ("06:00")].map (fun time =>
        { time := time
          minutes := timeToMinutes time
          isPast := decide (timeToMinutes time ≤ 1411) : TrainSlot })) ∧
    List.Pairwise (fun a b : TrainSlot => a.minutes ≤ b.minutes)
      (getAllTrains (some [("23:30"), ("06:00")]) 1411) ∧
    ∀ s ∈ getAllTrains (some [("23:30"), ("06:00")]) 1411,
      (s.isPast = true ↔ s.minutes ≤ 1411)) :=
  ⟨by decide, C1_resolveAll_sorted [("23:30"), ("06:00")] 1411 (by decide)⟩

/-- C2: on a non-empty sorted slot list, the next-train index resolution
returns the index of the first slot strictly after `now`, and returns 0
(wrapping to the first train of the day) when every slot has departed. -/
theorem C2_nextIndex_first_future (slots : List TrainSlot) (now : Nat)
    (hne : slots ≠ [])
    (hsorted : List.Pairwise (fun a b : TrainSlot => a.minutes ≤ b.minutes) slots) :
    ((∃ t ∈ slots, now < t.minutes) →
      ∃ t, slots[getNextTrainIndexOfSlots slots now]? = some t ∧ now < t.minutes ∧
        ∀ k u, k < getNextTrainIndexOfSlots slots now → slots[k]? = some u →
          u.minutes ≤ now) ∧
    ((∀ t ∈ slots, t.minutes ≤ now) → getNextTrainIndexOfSlots slots now = 0) := by
  cases hfi : slots.findIdx? (fun train => decide (train.minutes > now)) with
  | none =>
    have hj : getNextTrainIndexOfSlots slots now = 0 := by
      simp [getNextTrainIndexOfSlots, hfi]
    rw [List.findIdx?_eq_none_iff] at hfi
    refine ⟨?_, ?_⟩
    · rintro ⟨t, ht, hlt⟩
      have := hfi t ht
      simp only [decide_eq_false_iff_not, not_lt] at this
      omega
    · intro _
      exact hj
  | some i =>
    have hj : getNextTrainIndexOfSlots slots now = i := by
      simp [getNextTrainIndexOfSlots, hfi]
    rw [List.findIdx?_eq_some_iff_getElem] at hfi
    obtain ⟨hlen, hp, hbefore⟩ := hfi
    refine ⟨?_, ?_⟩
    · intro _
      refine ⟨slots[i], by rw [hj]; exact List.getElem?_eq_getElem hlen, ?_, ?_⟩
      · simpa using hp
      · intro k u hk hku
        rw [hj] at hk
        have hklen : k < slots.length := lt_trans hk hlen
        have := hbefore k hk
        rw [List.getElem?_eq_getElem hklen] at hku
        cases hku
        simpa using this
    · intro hall
      have := hall slots[i] (List.getElem_mem hlen)
      simp only [decide_eq_true_eq] at hp
      omega

/-- Witness for C2 at the concrete input of the claim: slots for "06:00"
and "23:30" and now = 23:31 (1411 minutes), where the resolved index
wraps to 0. -/
theorem C2_nextIndex_first_future_witness :
    ([{ time := ("06:00"), minutes := 360, isPast := true : TrainSlot },
      { time := ("23:30"), minutes := 1410, isPast := true : TrainSlot }] ≠
        ([] : List TrainSlot)) ∧
    List.Pairwise (fun a b : TrainSlot => a.minutes ≤ b.minutes)
      [{ time := ("06:00"), minutes := 360, isPast := true : TrainSlot },
       { time := ("23:30"), minutes := 1410, isPast := true : TrainSlot }] ∧
    (((∃ t ∈ [{ time := ("06:00"), minutes := 360, isPast := true : TrainSlot },
        { time := ("23:30"), minutes := 1410, isPast := true : TrainSlot }],
          1411 < t.minutes) →
      ∃ t, [{ time := ("06:00"), minutes := 360, isPast := true : TrainSlot },
        { time := ("23:30"), minutes := 1410, isPast := true : TrainSlot
          }][getNextTrainIndexOfSlots
            [{ time := ("06:00"), minutes := 360, isPast := true : TrainSlot },
             { time := ("23:30"), minutes := 1410, isPast := true : TrainSlot }] 1411]? =
          some t ∧ 1411 < t.minutes ∧
        ∀ k u, k < getNextTrainIndexOfSlots
            [{ time := ("06:00"), minutes := 360, isPast := true : TrainSlot },
             { time := ("23:30"), minutes := 1410, isPast := true : TrainSlot }] 1411 →
          [{ time := ("06:00"), minutes := 360, isPast := true : TrainSlot },
           { time := ("23:30"), minutes := 1410, isPast := true : TrainSlot }][k]? =
            some u → u.minutes ≤ 1411) ∧
    ((∀ t ∈ [{ time := ("06:00"), minutes := 360, isPast := true : TrainSlot },
        { time := ("23:30"), minutes := 1410, isPast := true : TrainSlot }],
          t.minutes ≤ 1411) →
      getNextTrainIndexOfSlots
        [{ time := ("06:00"), minutes := 360, isPast := true : TrainSlot },
         { time := ("23:30"), minutes := 1410, isPast := true : TrainSlot }] 1411 = 0)) :=
  ⟨by decide, by decide,
    C2_nextIndex_first_future
      [{ time := ("06:00"), minutes := 360, isPast := true : TrainSlot },
       { time := ("23:30"), minutes := 1410, isPast := true : TrainSlot }] 1411
      (by decide) (by decide)⟩

/-- C5 counterexample: for the empty slot list the next-train index
resolution returns the plain index 0 (there is no distinct "no service"
value in its result type, and the navigation handlers merely leave the
index unchanged), contradicting the claim that index resolution yields a
distinct no-service terminal state rather than index 0. -/
theorem C5_empty_slots_counterexample :
    getNextTrainIndexOfSlots [] 1411 = 0 ∧
    showNextTrainIndex [] 3 = 3 ∧
    showPreviousTrainIndex [] 3 = 3 := by
  refine ⟨rfl, rfl, rfl⟩

/-- C5 amended: for an empty slot list, `getNextTrainIndex` returns the
plain index 0 and both navigation handlers are no-ops that leave the
index unchanged; the distinct "no service" terminal state is produced
only by the display layer (`updateTrainInfo` and `updateCountdown`),
which finds no slot at the current index and selects the no-service
message. -/
theorem C5_empty_slots_amended (now idx sec : Nat) :
    getNextTrainIndexOfSlots [] now = 0 ∧
    showNextTrainIndex [] idx = idx ∧
    showPreviousTrainIndex [] idx = idx ∧
    updateTrainInfoState [] idx = TrainInfoState.noService ∧
    updateCountdownState [] idx now sec = CountdownState.noService := by
  refine ⟨rfl, rfl, rfl, ?_, ?_⟩
  · simp [updateTrainInfoState]
  · simp [updateCountdownState]

/-- C6 counterexample: with the selected slot at "08:05" (485 minutes)
and wall clock 08:05:01 (minutes 485, seconds 1), the countdown formatter
produces the DEPARTING_NOW state (`即将发车`), not DEPARTED: the departed
test compares whole minutes only, and 485 - 485 = 0 is not negative. -/
theorem C6_countdown_departed_counterexample :
    updateCountdownState
      [{ time := ("08:05"), minutes := 485, isPast := true : TrainSlot }] 0 485 1 =
      CountdownState.departing ∧
    updateCountdownState
      [{ time := ("08:05"), minutes := 485, isPast := true : TrainSlot }] 0 485 1 ≠
      CountdownState.departed := by
  refine ⟨by decide, by decide⟩

/-- C6 amended: for a selected slot, the countdown formatter produces
DEPARTED exactly when the slot's minutes-of-day is strictly less than the
current minutes-of-day; seconds within the slot's own minute do not make
it DEPARTED (slot "08:05" at 08:05:01 yields DEPARTING_NOW instead). -/
theorem C6_departed_iff_minute_strictly_past (allTrains : List TrainSlot)
    (idx now sec : Nat) (t : TrainSlot) (ht : allTrains[idx]? = some t) :
    (updateCountdownState allTrains idx now sec = CountdownState.departed ↔
      t.minutes < now) := by
  simp only [updateCountdownState, ht]
  split_ifs with h1 h2 h3
  · simp only [true_iff]
    omega
  · simp only [reduceCtorEq, false_iff]
    omega
  · simp only [reduceCtorEq, false_iff]
    omega
  · simp only [reduceCtorEq, false_iff]
    omega

/-- Witness for C6 amended at a concrete departed input: slot "08:00"
(480 minutes) at wall clock 08:05:30. -/
theorem C6_departed_iff_minute_strictly_past_witness :
    (([{ time := ("08:00"), minutes := 480, isPast := true : TrainSlot }] :
        List TrainSlot)[0]? =
      some { time := ("08:00"), minutes := 480, isPast := true : TrainSlot }) ∧
    (updateCountdownState
        [{ time := ("08:00"), minutes := 480, isPast := true : TrainSlot }] 0 485 30 =
        CountdownState.departed ↔ 480 < 485) :=
  ⟨by decide,
    C6_departed_iff_minute_strictly_past
      [{ time := ("08:00"), minutes := 480, isPast := true : TrainSlot }] 0 485 30
      { time := ("08:00"), minutes := 480, isPast := true : TrainSlot } (by decide)⟩

/-- C7: for a selected slot strictly in the future (by minutes-of-day),
the countdown formatter counts down with
totalSeconds = (slot.minutes - now) * 60 - seconds, split into whole
minutes and remaining seconds, and presents seconds-only exactly when the
whole-minute component is 0. -/
theorem C7_countdown_formula (allTrains : List TrainSlot) (idx now sec : Nat)
    (t : TrainSlot) (ht : allTrains[idx]? = some t) (hfut : now < t.minutes)
    (hsec : sec < 60) :
    updateCountdownState allTrains idx now sec =
      (if ((t.minutes - now) * 60 - sec) / 60 = 0 then
        CountdownState.departsInSeconds (((t.minutes - now) * 60 - sec : Nat) : Int)
      else
        CountdownState.departsIn ((((t.minutes - now) * 60 - sec) / 60 : Nat) : Int)
          ((((t.minutes - now) * 60 - sec) % 60 : Nat) : Int)) := by
  simp only [updateCountdownState, ht]
  rw [if_neg (by omega), if_neg (by omega)]
  have hts : ((t.minutes : Int) - (now : Int)) * 60 - (sec : Int) =
      (((t.minutes - now) * 60 - sec : Nat) : Int) := by
    omega
  rw [hts]
  rw [Int.fdiv_eq_ediv _ (by norm_num), Int.tmod_eq_emod (by positivity) (by norm_num)]
  have hdiv : ((((t.minutes - now) * 60 - sec : Nat) : Int)) / 60 =
      ((((t.minutes - now) * 60 - sec) / 60 : Nat) : Int) := by
    omega
  have hmod : ((((t.minutes - now) * 60 - sec : Nat) : Int)) % 60 =
      ((((t.minutes - now) * 60 - sec) % 60 : Nat) : Int) := by
    omega
  rw [hdiv, hmod]
  by_cases hk : ((t.minutes - now) * 60 - sec) / 60 = 0
  · rw [if_pos (show ((((t.minutes - now) * 60 - sec) / 60 : Nat) : Int) < 1 by omega),
      if_pos hk]
  · rw [if_neg (show ¬((((t.minutes - now) * 60 - sec) / 60 : Nat) : Int) < 1 by omega),
      if_neg hk]

/-- Witness for C7 at the concrete example of the claim: slot "08:05"
(485 minutes) at wall clock 08:03:10, giving minutes = 1, seconds = 50. -/
theorem C7_countdown_formula_witness :
    (([{ time := ("08:05"), minutes := 485, isPast := false : TrainSlot }] :
        List TrainSlot)[0]? =
      some { time := ("08:05"), minutes := 485, isPast := false : TrainSlot }) ∧
    (483 < 485) ∧ (10 < 60) ∧
    updateCountdownState
      [{ time := ("08:05"), minutes := 485, isPast := false : TrainSlot }] 0 483 10 =
      CountdownState.departsIn 1 50 := by
  refine ⟨by decide, by decide, by decide, ?_⟩
  have h := C7_countdown_formula
    [{ time := ("08:05"), minutes := 485, isPast := false : TrainSlot }] 0 483 10
    { time := ("08:05"), minutes := 485, isPast := false : TrainSlot }
    (by decide) (by decide) (by decide)
  exact h.trans (by decide)

/-- Proof-side accumulator characterization: the weekday times stored
after folding `groupStep` over records of a single destination, starting
from stored value `w`. -/
def lastWeekdayTimes (recs : List ScheduleRecord) (w : Option (List String)) :
    Option (List String) :=
  match recs with
  | [] => w
  | r :: rs =>
    lastWeekdayTimes rs
      (if r.operating_time = some ("工作日") then r.schedule_times else w)

/-- Folding `groupStep` over records that all carry destination `d`,
starting from the singleton entry for `d`, keeps the singleton shape and
updates the stored weekday times as `lastWeekdayTimes` does. -/
theorem foldl_groupStep_single (d : Option String) :
    ∀ (recs : List ScheduleRecord) (w : Option (List String)),
      (∀ r ∈ recs, r.destination = d) →
      recs.foldl groupStep [{ direction := d, weekdayTimes := w }] =
        [{ direction := d, weekdayTimes := lastWeekdayTimes recs w }] := by
  intro recs
  induction recs with
  | nil =>
    intro w _
    rfl
  | cons r rs ih =>
    intro w hall
    have hd : r.destination = d := hall r (by simp)
    have hrest : ∀ x ∈ rs, x.destination = d := fun x hx => hall x (by simp [hx])
    have hstep : groupStep [{ direction := d, weekdayTimes := w }] r =
        [{ direction := d,
           weekdayTimes :=
             if r.operating_time = some ("工作日") then r.schedule_times else w }] := by
      by_cases hw : r.operating_time = some ("工作日") <;>
        simp [groupStep, hd, hw]
    show List.foldl groupStep (groupStep [{ direction := d, weekdayTimes := w }] r) rs = _
    rw [hstep, ih _ hrest]
    rfl

/-- Fold characterization versus the claim's formulation: the stored
value is the `schedule_times` of the last weekday record, or the start
value when no weekday record exists. -/
theorem lastWeekdayTimes_eq_getLast (recs : List ScheduleRecord) :
    ∀ w, lastWeekdayTimes recs w =
      match (recs.filter (fun r =>
          decide (r.operating_time = some ("工作日")))).getLast? with
      | some r => r.schedule_times
      | none => w := by
  induction recs with
  | nil =>
    intro w
    rfl
  | cons r rs ih =>
    intro w
    by_cases hw : r.operating_time = some ("工作日")
    · rw [show lastWeekdayTimes (r :: rs) w = lastWeekdayTimes rs r.schedule_times from by
        simp [lastWeekdayTimes, hw]]
      rw [ih r.schedule_times, List.filter_cons, if_pos (by simp [hw])]
      cases hfl : rs.filter (fun x => decide (x.operating_time = some ("工作日"))) with
      | nil => simp
      | cons y ys =>
        rw [List.getLast?_cons_cons]
        cases hgl : (y :: ys).getLast? with
        | none => exact absurd hgl (by simp)
        | some z => rfl
    · rw [show lastWeekdayTimes (r :: rs) w = lastWeekdayTimes rs w from by
        simp [lastWeekdayTimes, hw]]
      rw [ih w, List.filter_cons, if_neg (by simp [hw])]

/-- C3: for a non-empty record list grouped into one Direction (all
records share destination `d`), the resulting single direction entry
carries the `schedule_times` of the last record in input order whose
operating class is 工作日 (weekday); records of any other class
contribute nothing, so a direction backed only by non-weekday records
keeps the empty initial weekday times. -/
theorem C3_last_weekday_wins (recs : List ScheduleRecord) (d : Option String)
    (hne : recs ≠ []) (hall : ∀ r ∈ recs, r.destination = d) :
    groupSchedulesByDirection recs =
      [{ direction := d,
         weekdayTimes :=
           match (recs.filter (fun r =>
               decide (r.operating_time = some ("工作日")))).getLast? with
           | some r => r.schedule_times
           | none => some [] }] := by
  cases recs with
  | nil => exact absurd rfl hne
  | cons r rs =>
    have hd : r.destination = d := hall r (by simp)
    have hrest : ∀ x ∈ rs, x.destination = d := fun x hx => hall x (by simp [hx])
    have h0 : groupStep [] r =
        [{ direction := d,
           weekdayTimes :=
             if r.operating_time = some ("工作日") then r.schedule_times
             else some [] }] := by
      by_cases hw : r.operating_time = some ("工作日") <;>
        simp [groupStep, hd, hw]
    calc groupSchedulesByDirection (r :: rs)
        = rs.foldl groupStep (groupStep [] r) := rfl
      _ = [{ direction := d,
             weekdayTimes := lastWeekdayTimes rs
               (if r.operating_time = some ("工作日") then r.schedule_times
                else some []) }] := by
          rw [h0]
          exact foldl_groupStep_single d rs _ hrest
      _ = [{ direction := d, weekdayTimes := lastWeekdayTimes (r :: rs) (some []) }] :=
          rfl
      _ = _ := by rw [lastWeekdayTimes_eq_getLast]

/-- Witness for C3 at a concrete record list: two weekday records (the
later one wins) and one weekend record (contributing nothing), all bound
for destination "X". -/
theorem C3_last_weekday_wins_witness :
    ([recWeekdayEarly, recWeekend, recWeekdayLate] ≠ ([] : List ScheduleRecord)) ∧
    (∀ r ∈ [recWeekdayEarly, recWeekend, recWeekdayLate],
      r.destination = some ("X")) ∧
    groupSchedulesByDirection [recWeekdayEarly, recWeekend, recWeekdayLate] =
      [{ direction := some ("X")
         weekdayTimes :=
           match ([recWeekdayEarly, recWeekend, recWeekdayLate].filter (fun r =>
               decide (r.operating_time = some ("工作日")))).getLast? with
           | some r => r.schedule_times
           | none => some [] }] :=
  ⟨by decide, by decide,
    C3_last_weekday_wins [recWeekdayEarly, recWeekend, recWeekdayLate]
      (some ("X")) (by decide) (by decide)⟩

/-- Membership in a `Set`-style fold: an element is collected exactly
when it was already in the accumulator or occurs in the input. -/
theorem mem_foldl_insertUnique {α : Type} [DecidableEq α] :
    ∀ (l acc : List α) (x : α),
      x ∈ l.foldl insertUnique acc ↔ x ∈ acc ∨ x ∈ l := by
  intro l
  induction l with
  | nil =>
    intro acc x
    simp
  | cons a as ih =>
    intro acc x
    rw [List.foldl_cons, ih]
    unfold insertUnique
    by_cases ha : a ∈ acc
    · rw [if_pos ha]
      simp only [List.mem_cons]
      constructor
      · rintro (h | h)
        · exact Or.inl h
        · exact Or.inr (Or.inr h)
      · rintro (h | h | h)
        · exact Or.inl h
        · exact Or.inl (h ▸ ha)
        · exact Or.inr h
    · rw [if_neg ha]
      simp only [List.mem_append, List.mem_cons, List.mem_singleton,
        List.not_mem_nil, or_false]
      tauto

/-- Membership characterization of `uniqueInOrder`. -/
theorem mem_uniqueInOrder {α : Type} [DecidableEq α] (l : List α) (x : α) :
    x ∈ uniqueInOrder l ↔ x ∈ l := by
  unfold uniqueInOrder
  rw [mem_foldl_insertUnique]
  simp

/-- The `Set`-style fold preserves freedom from duplicates. -/
theorem nodup_foldl_insertUnique {α : Type} [DecidableEq α] :
    ∀ (l acc : List α), acc.Nodup → (l.foldl insertUnique acc).Nodup := by
  intro l
  induction l with
  | nil =>
    intro acc h
    exact h
  | cons a as ih =>
    intro acc h
    rw [List.foldl_cons]
    apply ih
    unfold insertUnique
    by_cases ha : a ∈ acc
    · rwa [if_pos ha]
    · rw [if_neg ha, List.nodup_append]
      refine ⟨h, List.nodup_singleton a, ?_⟩
      intro x hx hxa
      rw [List.mem_singleton] at hxa
      exact ha (hxa ▸ hx)

/-- The deduplicated station-name list has no duplicates. -/
theorem uniqueInOrder_nodup {α : Type} [DecidableEq α] (l : List α) :
    (uniqueInOrder l).Nodup :=
  nodup_foldl_insertUnique l [] List.nodup_nil

/-- A non-empty input yields a non-empty deduplicated list. -/
theorem uniqueInOrder_ne_nil {α : Type} [DecidableEq α] {l : List α} (h : l ≠ []) :
    uniqueInOrder l ≠ [] := by
  cases l with
  | nil => exact absurd rfl h
  | cons a as =>
    intro hcontra
    have hmem : a ∈ uniqueInOrder (a :: as) := (mem_uniqueInOrder _ _).mpr (by simp)
    rw [hcontra] at hmem
    exact absurd hmem (List.not_mem_nil a)

/-- One `groupStep` application never produces the empty direction list:
an unseen destination is inserted before any update. -/
theorem groupStep_ne_nil (acc : List DirectionData) (s : ScheduleRecord) :
    groupStep acc s ≠ [] := by
  simp only [groupStep]
  split_ifs with hw ha ha <;> intro hnil
  · rw [List.map_eq_nil_iff] at hnil
    rw [hnil] at ha
    simp at ha
  · rw [List.map_eq_nil_iff] at hnil
    simp at hnil
  · rw [hnil] at ha
    simp at ha
  · simp at hnil

/-- Folding `groupStep` from a non-empty accumulator stays non-empty. -/
theorem foldl_groupStep_ne_nil :
    ∀ (l : List ScheduleRecord) (acc : List DirectionData), acc ≠ [] →
      l.foldl groupStep acc ≠ [] := by
  intro l
  induction l with
  | nil =>
    intro acc h
    exact h
  | cons r rs ih =>
    intro acc _
    rw [List.foldl_cons]
    exact ih _ (groupStep_ne_nil acc r)

/-- Grouping a non-empty record list yields at least one direction. -/
theorem groupSchedulesByDirection_ne_nil {l : List ScheduleRecord} (h : l ≠ []) :
    groupSchedulesByDirection l ≠ [] := by
  cases l with
  | nil => exact absurd rfl h
  | cons r rs =>
    show (r :: rs).foldl groupStep [] ≠ []
    rw [List.foldl_cons]
    exact foldl_groupStep_ne_nil rs _ (groupStep_ne_nil [] r)

/-- Mapping a station builder and projecting the name is the identity on
the name list. -/
theorem map_name_buildStation (routesData : RoutesData)
    (schedules : List ScheduleRecord) :
    ∀ names : List (Option String),
      ((names.map (buildStation routesData schedules)).map (fun st => st.name)) =
        names := by
  intro names
  induction names with
  | nil => rfl
  | cons a as ih =>
    simp only [List.map_cons, ih]
    rfl

/-- Station names of the merged catalog are exactly the distinct
(possibly missing) station values of the records, in first-seen order,
for every input whatsoever. -/
theorem mergeData_stations_names (routesData : RoutesData)
    (recs : List ScheduleRecord) :
    (mergeData routesData recs).stations.map (fun st => st.name) =
      uniqueInOrder (recs.map (fun r => r.station)) := by
  simp only [mergeData]
  exact map_name_buildStation routesData recs _

/-- C4 counterexample: merging a record whose required `station` field is
missing does not fail; it produces a catalog with one station entry whose
name is the undefined value, refuting the claim that the merge fails with
a data-format error and produces no catalog. -/
theorem C4_malformed_record_counterexample :
    (mergeData emptyRoutes [recMissingStation]).stations.length = 1 ∧
    (mergeData emptyRoutes [recMissingStation]).stations.map (fun st => st.name) =
      [none] := by
  exact ⟨rfl, rfl⟩

/-- C4 amended: the merge performs no validation at all.  For every
input, including records missing required fields, it totally produces a
catalog whose station entries are exactly the distinct (possibly
missing) station values of the records; in particular the catalog is
non-empty whenever any record (malformed or not) is present, and the
merge never fails with a data-format error.  (A malformed JSONL line that
is not valid JSON does abort the load, but a field-missing record does
not.) -/
theorem C4_merge_never_fails (routesData : RoutesData) (recs : List ScheduleRecord) :
    (mergeData routesData recs).stations.map (fun st => st.name) =
      uniqueInOrder (recs.map (fun r => r.station)) ∧
    ((mergeData routesData recs).stations = [] ↔ recs = []) := by
  refine ⟨mergeData_stations_names routesData recs, ?_, ?_⟩
  · intro h
    by_contra hrecs
    have h1 : recs.map (fun r => r.station) ≠ [] := by
      intro hcontra
      exact hrecs (List.map_eq_nil_iff.mp hcontra)
    have h2 := uniqueInOrder_ne_nil h1
    rw [← mergeData_stations_names routesData recs] at h2
    rw [h] at h2
    simp at h2
  · intro h
    rw [h]
    rfl

/-- C8: for every line metadata table and every list of well-formed
schedule records, the merged catalog contains exactly one station per
distinct station name appearing in the records (no duplicates, and a
name occurs in the catalog exactly when some record carries it), and
every station has at least one line, each of which has at least one
direction. -/
theorem C8_catalog_structure (routesData : RoutesData) (recs : List ScheduleRecord)
    (hwf : ∀ r ∈ recs, wellFormedRecord r = true) :
    ((mergeData routesData recs).stations.map (fun st => st.name)).Nodup ∧
    (∀ nm, nm ∈ (mergeData routesData recs).stations.map (fun st => st.name) ↔
      nm ∈ recs.map (fun r => r.station)) ∧
    ∀ st ∈ (mergeData routesData recs).stations,
      st.lines ≠ [] ∧ ∀ l ∈ st.lines, l.directions ≠ [] := by
  refine ⟨?_, ?_, ?_⟩
  · rw [mergeData_stations_names]
    exact uniqueInOrder_nodup _
  · intro nm
    rw [mergeData_stations_names, mem_uniqueInOrder]
  · intro st hst
    simp only [mergeData, List.mem_map] at hst
    obtain ⟨n, hn, rfl⟩ := hst
    have hn2 : n ∈ recs.map (fun r => r.station) := (mem_uniqueInOrder _ _).mp hn
    rw [List.mem_map] at hn2
    obtain ⟨r0, hr0, hr0n⟩ := hn2
    have hfil : r0 ∈ recs.filter (fun schedule => decide (schedule.station = n)) :=
      List.mem_filter.mpr ⟨hr0, by simp [hr0n]⟩
    have hfilne : recs.filter (fun schedule => decide (schedule.station = n)) ≠ [] := by
      intro hcontra
      rw [hcontra] at hfil
      exact absurd hfil (List.not_mem_nil r0)
    constructor
    · show (uniqueInOrder ((recs.filter (fun schedule =>
          decide (schedule.station = n))).map (fun s => s.route))).map
          (buildLine routesData (recs.filter (fun schedule =>
            decide (schedule.station = n)))) ≠ []
      intro hcontra
      rw [List.map_eq_nil_iff] at hcontra
      exact uniqueInOrder_ne_nil
        (by
          intro hmap
          exact hfilne (List.map_eq_nil_iff.mp hmap)) hcontra
    · intro l hl
      have hl2 : l ∈ (uniqueInOrder ((recs.filter (fun schedule =>
          decide (schedule.station = n))).map (fun s => s.route))).map
          (buildLine routesData (recs.filter (fun schedule =>
            decide (schedule.station = n)))) := hl
      rw [List.mem_map] at hl2
      obtain ⟨rt, hrt, rfl⟩ := hl2
      have hrt2 : rt ∈ (recs.filter (fun schedule =>
          decide (schedule.station = n))).map (fun s => s.route) :=
        (mem_uniqueInOrder _ _).mp hrt
      rw [List.mem_map] at hrt2
      obtain ⟨r1, hr1, hr1rt⟩ := hrt2
      show groupSchedulesByDirection ((recs.filter (fun schedule =>
          decide (schedule.station = n))).filter (fun schedule =>
            decide (schedule.route = rt))) ≠ []
      apply groupSchedulesByDirection_ne_nil
      intro hcontra
      have : r1 ∈ (recs.filter (fun schedule =>
          decide (schedule.station = n))).filter (fun schedule =>
            decide (schedule.route = rt)) :=
        List.mem_filter.mpr ⟨hr1, by simp [hr1rt]⟩
      rw [hcontra] at this
      exact absurd this (List.not_mem_nil r1)

/-- Witness for C8 at concrete data: two well-formed records for station
"S" merged against the sample routes metadata. -/
theorem C8_catalog_structure_witness :
    (∀ r ∈ [recWeekdayEarly, recWeekend], wellFormedRecord r = true) ∧
    (((mergeData sampleRoutes [recWeekdayEarly, recWeekend]).stations.map
        (fun st => st.name)).Nodup ∧
    (∀ nm, nm ∈ (mergeData sampleRoutes [recWeekdayEarly, recWeekend]).stations.map
        (fun st => st.name) ↔
      nm ∈ [recWeekdayEarly, recWeekend].map (fun r => r.station)) ∧
    ∀ st ∈ (mergeData sampleRoutes [recWeekdayEarly, recWeekend]).stations,
      st.lines ≠ [] ∧ ∀ l ∈ st.lines, l.directions ≠ []) :=
  ⟨by decide,
    C8_catalog_structure sampleRoutes [recWeekdayEarly, recWeekend] (by decide)⟩

/-- Invariant of the `findNearestStation` scan: if the processed prefix
decomposes around the current best station (everything before it strictly
farther, everything after it no closer), folding the remaining stations
preserves this shape. -/
theorem foldl_nearestStep_inv (dist : StationData → ℝ) :
    ∀ (rest l₁ l₂ : List StationData) (st : StationData),
      (∀ s ∈ l₁, dist st < dist s) → (∀ s ∈ l₂, dist st ≤ dist s) →
      ∃ st2 m₁ m₂,
        rest.foldl (nearestStep dist) (some (st, dist st)) = some (st2, dist st2) ∧
        l₁ ++ st :: l₂ ++ rest = m₁ ++ st2 :: m₂ ∧
        (∀ s ∈ m₁, dist st2 < dist s) ∧ (∀ s ∈ m₂, dist st2 ≤ dist s) := by
  intro rest
  induction rest with
  | nil =>
    intro l₁ l₂ st h1 h2
    exact ⟨st, l₁, l₂, rfl, by simp, h1, h2⟩
  | cons x xs ih =>
    intro l₁ l₂ st h1 h2
    rw [List.foldl_cons]
    have hstep : nearestStep dist (some (st, dist st)) x =
        (if dist x < dist st then some (x, dist x) else some (st, dist st)) := rfl
    by_cases hx : dist x < dist st
    · rw [hstep, if_pos hx]
      have hall : ∀ s ∈ l₁ ++ st :: l₂, dist x < dist s := by
        intro s hs
        rcases List.mem_append.mp hs with h | h
        · exact lt_trans hx (h1 s h)
        · rcases List.mem_cons.mp h with rfl | h
          · exact hx
          · exact lt_of_lt_of_le hx (h2 s h)
      obtain ⟨st2, m₁, m₂, heq, hdecomp, hm1, hm2⟩ :=
        ih (l₁ ++ st :: l₂) [] x hall (by simp)
      refine ⟨st2, m₁, m₂, heq, ?_, hm1, hm2⟩
      rw [← hdecomp]
      simp
    · rw [hstep, if_neg hx]
      have h2x : ∀ s ∈ l₂ ++ [x], dist st ≤ dist s := by
        intro s hs
        rcases List.mem_append.mp hs with h | h
        · exact h2 s h
        · rw [List.mem_singleton] at h
          exact h ▸ not_lt.mp hx
      obtain ⟨st2, m₁, m₂, heq, hdecomp, hm1, hm2⟩ := ih l₁ (l₂ ++ [x]) st h1 h2x
      refine ⟨st2, m₁, m₂, heq, ?_, hm1, hm2⟩
      rw [← hdecomp]
      simp

/-- C9: for every user coordinate and every non-empty catalog, the
nearest-station scan returns a station (with its computed distance
attached) whose computed distance is minimal over the catalog, and every
station appearing before it in catalog order is strictly farther — so
among equidistant minima the first in catalog order is returned. -/
theorem C9_nearest_station_first_min (userLat userLng : ℝ)
    (stations : List StationData) (hne : stations ≠ []) :
    ∃ st m₁ m₂,
      findNearestStation userLat userLng stations =
        some (st, calculateDistance userLat userLng (st.lat : ℝ) (st.lng : ℝ)) ∧
      stations = m₁ ++ st :: m₂ ∧
      (∀ s ∈ stations,
        calculateDistance userLat userLng (st.lat : ℝ) (st.lng : ℝ) ≤
          calculateDistance userLat userLng (s.lat : ℝ) (s.lng : ℝ)) ∧
      (∀ s ∈ m₁,
        calculateDistance userLat userLng (st.lat : ℝ) (st.lng : ℝ) <
          calculateDistance userLat userLng (s.lat : ℝ) (s.lng : ℝ)) := by
  cases stations with
  | nil => exact absurd rfl hne
  | cons x xs =>
    obtain ⟨st2, m₁, m₂, heq, hdecomp, hm1, hm2⟩ :=
      foldl_nearestStep_inv
        (fun s => calculateDistance userLat userLng (s.lat : ℝ) (s.lng : ℝ))
        xs [] [] x (by simp) (by simp)
    have hdecomp2 : x :: xs = m₁ ++ st2 :: m₂ := by
      rw [← hdecomp]
      simp
    refine ⟨st2, m₁, m₂, heq, hdecomp2, ?_, hm1⟩
    intro s hs
    rw [hdecomp2] at hs
    rcases List.mem_append.mp hs with h | h
    · exact le_of_lt (hm1 s h)
    · rcases List.mem_cons.mp h with rfl | h
      · exact le_refl _
      · exact hm2 s h

/-- Witness for C9 at a concrete two-station catalog whose stations are
equidistant from the user (identical coordinates), so the scan must keep
the first. -/
theorem C9_nearest_station_first_min_witness :
    (([stationA, stationB] : List StationData) ≠ []) ∧
    (∃ st m₁ m₂,
      findNearestStation 0 0 [stationA, stationB] =
        some (st, calculateDistance 0 0 (st.lat : ℝ) (st.lng : ℝ)) ∧
      ([stationA, stationB] : List StationData) = m₁ ++ st :: m₂ ∧
      (∀ s ∈ ([stationA, stationB] : List StationData),
        calculateDistance 0 0 (st.lat : ℝ) (st.lng : ℝ) ≤
          calculateDistance 0 0 (s.lat : ℝ) (s.lng : ℝ)) ∧
      (∀ s ∈ m₁,
        calculateDistance 0 0 (st.lat : ℝ) (st.lng : ℝ) <
          calculateDistance 0 0 (s.lat : ℝ) (s.lng : ℝ))) :=
  ⟨by simp,
    C9_nearest_station_first_min 0 0 [stationA, stationB] (by simp)⟩

/-- C10: the haversine distance is symmetric in its two coordinates. -/
theorem C10_calculateDistance_symm (lat1 lng1 lat2 lng2 : ℝ) :
    calculateDistance lat1 lng1 lat2 lng2 = calculateDistance lat2 lng2 lat1 lng1 := by
  have hsin : ∀ x y : ℝ,
      Real.sin (toRad (x - y) / 2) * Real.sin (toRad (x - y) / 2) =
        Real.sin (toRad (y - x) / 2) * Real.sin (toRad (y - x) / 2) := by
    intro x y
    have h : toRad (x - y) / 2 = -(toRad (y - x) / 2) := by
      simp only [toRad]
      ring
    rw [h, Real.sin_neg]
    ring
  have hterm : ∀ p q u v : ℝ,
      Real.cos p * Real.cos q * Real.sin (toRad (u - v) / 2) *
          Real.sin (toRad (u - v) / 2) =
        Real.cos q * Real.cos p * Real.sin (toRad (v - u) / 2) *
          Real.sin (toRad (v - u) / 2) := by
    intro p q u v
    have h : toRad (u - v) / 2 = -(toRad (v - u) / 2) := by
      simp only [toRad]
      ring
    rw [h, Real.sin_neg]
    ring
  simp only [calculateDistance]
  rw [hsin lat2 lat1, hterm (toRad lat1) (toRad lat2) lng2 lng1]

end NextTrain
